import Mathlib

/-!
Verification of the constant-product AMM in `src/py/amm.py`.

The Python module defines a helper `divup` (ceiling division) and a class
`PartialAmm` holding two integer reserves `r0`, `r1` with operations
`quoteBuy0`, `buy0`, `quoteSell0`, `sell0`, `donate0` and a derived
`price0`.  Python integers are unbounded, so reserves and amounts are
embedded as `Int`; Python `//` is floor division, embedded as `Int.fdiv`.
A Python `raise` unwinds before any mutation of `self`, so the mutating
operations are embedded as functions returning the result together with
the post-call pool state; on an error the state returned is the input
state, which is exactly what a caller of the Python code observes after
catching the exception.
-/

namespace Amm

/-- Pool state: the two integer reserves of `PartialAmm` (the cosmetic
`id` field is display-only and carries no semantics, so it is omitted). -/
structure PartialAmm where
  r0 : Int
  r1 : Int
deriving DecidableEq

/-- `divup(n, d) = (n + (d - 1)) // d` from the source, with Python `//`
being floor division. -/
def divup (n d : Int) : Int := (n + (d - 1)).fdiv d

/-- `price0` property: `r1 / r0`.  Python computes a float; the spec calls
it a real-valued quotient, embedded here as the exact rational. -/
def price0 (p : PartialAmm) : ℚ := (p.r1 : ℚ) / (p.r0 : ℚ)

/-- `quoteBuy0`: raises when `a0 >= r0`, otherwise returns
`divup(r0*r1, r0 - a0) - r1`.  Pure: no state is touched. -/
def quoteBuy0 (p : PartialAmm) (a0 : Int) : Except String Int :=
  if a0 ≥ p.r0 then Except.error "InsufficientReserve"
  else Except.ok (divup (p.r0 * p.r1) (p.r0 - a0) - p.r1)

/-- `buy0`: quotes, then debits `r0` and credits `r1`.  The Python
mutations run only after `quoteBuy0` returns, so on an error the pool is
unchanged. -/
def buy0 (p : PartialAmm) (a0 : Int) : Except String Int × PartialAmm :=
  match quoteBuy0 p a0 with
  | Except.error e => (Except.error e, p)
  | Except.ok a1 => (Except.ok a1, ⟨p.r0 - a0, p.r1 + a1⟩)

/-- `quoteSell0`: computes `a1 = r1 - (r0*r1) // (r0 + a0)` and raises
when `a1 >= r1`.  Pure: no state is touched. -/
def quoteSell0 (p : PartialAmm) (a0 : Int) : Except String Int :=
  let a1 := p.r1 - (p.r0 * p.r1).fdiv (p.r0 + a0)
  if a1 ≥ p.r1 then Except.error "ReserveExhausted"
  else Except.ok a1

/-- `sell0`: quotes, then credits `r0` and debits `r1`.  As with `buy0`,
on an error the pool is unchanged. -/
def sell0 (p : PartialAmm) (a0 : Int) : Except String Int × PartialAmm :=
  match quoteSell0 p a0 with
  | Except.error e => (Except.error e, p)
  | Except.ok a1 => (Except.ok a1, ⟨p.r0 + a0, p.r1 - a1⟩)

/-- `donate0`: unconditionally adds `a0` to `r0` and returns the updated
`price0` together with the new state. -/
def donate0 (p : PartialAmm) (a0 : Int) : ℚ × PartialAmm :=
  let p2 : PartialAmm := ⟨p.r0 + a0, p.r1⟩
  (price0 p2, p2)

/-! ### Arithmetic facts about `divup` and floor division -/

/-- For a positive divisor, Python floor division agrees with Lean's
Euclidean division on `Int`. -/
theorem fdiv_eq_ediv_of_pos (n : Int) {d : Int} (hd : 0 < d) :
    n.fdiv d = n / d :=
  Int.fdiv_eq_ediv n hd.le

/-- `d * divup n d` dominates `n` for a positive divisor. -/
theorem le_mul_divup (n : Int) {d : Int} (hd : 0 < d) :
    n ≤ d * divup n d := by
  unfold divup
  rw [fdiv_eq_ediv_of_pos _ hd]
  have hmod : (n + (d - 1)) % d < d := Int.emod_lt_of_pos _ hd
  have h := Int.ediv_add_emod (n + (d - 1)) d
  omega

/-- `d * divup n d` exceeds `n` by less than `d` for a positive divisor. -/
theorem mul_divup_lt (n : Int) {d : Int} (hd : 0 < d) :
    d * divup n d < n + d := by
  unfold divup
  rw [fdiv_eq_ediv_of_pos _ hd]
  have hmod : 0 ≤ (n + (d - 1)) % d := Int.emod_nonneg _ (by omega)
  have h := Int.ediv_add_emod (n + (d - 1)) d
  omega

/-- For a positive divisor, `divup` is the rational ceiling of `n / d`. -/
theorem divup_eq_ceil (n : Int) {d : Int} (hd : 0 < d) :
    divup n d = ⌈(n : ℚ) / (d : ℚ)⌉ := by
  have hdq : (0 : ℚ) < (d : ℚ) := by exact_mod_cast hd
  symm
  rw [Int.ceil_eq_iff]
  constructor
  · rw [lt_div_iff₀ hdq]
    have h := mul_divup_lt n hd
    rw [sub_mul, one_mul]
    have : ((divup n d : Int) : ℚ) * (d : ℚ) < (n : ℚ) + (d : ℚ) := by
      exact_mod_cast (mul_comm d (divup n d) ▸ h)
    linarith
  · rw [div_le_iff₀ hdq]
    have h := le_mul_divup n hd
    exact_mod_cast (mul_comm d (divup n d) ▸ h)

/-! ### Characterizations of the operations -/

theorem quoteBuy0_eq_ok (p : PartialAmm) (a0 a1 : Int) :
    quoteBuy0 p a0 = Except.ok a1 ↔
      a0 < p.r0 ∧ a1 = divup (p.r0 * p.r1) (p.r0 - a0) - p.r1 := by
  simp only [quoteBuy0, ge_iff_le]
  split
  · next hge =>
    constructor
    · intro h; exact Except.noConfusion h
    · rintro ⟨hlt, _⟩; omega
  · next hge =>
    constructor
    · intro h
      injection h with h
      exact ⟨by omega, h.symm⟩
    · rintro ⟨_, rfl⟩; rfl

theorem quoteSell0_eq_ok (p : PartialAmm) (a0 a1 : Int) :
    quoteSell0 p a0 = Except.ok a1 ↔
      a1 = p.r1 - (p.r0 * p.r1).fdiv (p.r0 + a0) ∧ a1 < p.r1 := by
  simp only [quoteSell0, ge_iff_le]
  split
  · next hge =>
    constructor
    · intro h; exact Except.noConfusion h
    · rintro ⟨rfl, hlt⟩; omega
  · next hge =>
    constructor
    · intro h
      injection h with h
      refine ⟨h.symm, ?_⟩
      omega
    · rintro ⟨rfl, _⟩; rfl

theorem buy0_eq_ok (p : PartialAmm) (a0 a1 : Int) (p2 : PartialAmm) :
    buy0 p a0 = (Except.ok a1, p2) ↔
      quoteBuy0 p a0 = Except.ok a1 ∧ p2 = ⟨p.r0 - a0, p.r1 + a1⟩ := by
  unfold buy0
  cases hq : quoteBuy0 p a0 with
  | error e =>
    constructor
    · intro h
      exact absurd (congrArg Prod.fst h) (by simp)
    · rintro ⟨h, -⟩; exact Except.noConfusion h
  | ok v =>
    constructor
    · intro h
      have h1 : Except.ok v = Except.ok a1 := congrArg Prod.fst h
      injection h1 with h1
      subst h1
      exact ⟨rfl, (congrArg Prod.snd h).symm⟩
    · rintro ⟨h, rfl⟩
      injection h with h
      subst h
      rfl

theorem sell0_eq_ok (p : PartialAmm) (a0 a1 : Int) (p2 : PartialAmm) :
    sell0 p a0 = (Except.ok a1, p2) ↔
      quoteSell0 p a0 = Except.ok a1 ∧ p2 = ⟨p.r0 + a0, p.r1 - a1⟩ := by
  unfold sell0
  cases hq : quoteSell0 p a0 with
  | error e =>
    constructor
    · intro h
      exact absurd (congrArg Prod.fst h) (by simp)
    · rintro ⟨h, -⟩; exact Except.noConfusion h
  | ok v =>
    constructor
    · intro h
      have h1 : Except.ok v = Except.ok a1 := congrArg Prod.fst h
      injection h1 with h1
      subst h1
      exact ⟨rfl, (congrArg Prod.snd h).symm⟩
    · rintro ⟨h, rfl⟩
      injection h with h
      subst h
      rfl

/-! ### Claim theorems -/

/-- C6: for every non-negative numerator `n` and strictly positive
denominator `d`, `divup n d` is exactly the ceiling of `n / d`; in
particular `divup 10 5 = 2` and `divup 11 5 = 3`. -/
theorem divup_correct :
    (∀ n d : Int, 0 ≤ n → 0 < d → divup n d = ⌈(n : ℚ) / (d : ℚ)⌉) ∧
    divup 10 5 = 2 ∧ divup 11 5 = 3 :=
  ⟨fun n _ _ hd => divup_eq_ceil n hd, by decide, by decide⟩

/-- C6 witness: the general ceiling formula instantiated at `(11, 5)`,
together with the two concrete values. -/
theorem divup_correct_witness :
    divup 11 5 = ⌈(11 : ℚ) / (5 : ℚ)⌉ ∧ divup 10 5 = 2 ∧ divup 11 5 = 3 :=
  ⟨divup_correct.1 11 5 (by decide) (by decide),
   divup_correct.2.1, divup_correct.2.2⟩

/-- C9: on the pool `(10000, 10000)` (so `k = 100000000` and
`price0 = 1`), `sell0 10000` returns `5000` leaving `(20000, 5000)` with
`price0 = 1/4`, and `buy0 90` returns `91` leaving `(9910, 10091)`. -/
theorem concrete_scenario :
    (10000 : Int) * 10000 = 100000000 ∧
    price0 ⟨10000, 10000⟩ = 1 ∧
    sell0 ⟨10000, 10000⟩ 10000 = (Except.ok 5000, ⟨20000, 5000⟩) ∧
    price0 ⟨20000, 5000⟩ = 1 / 4 ∧
    buy0 ⟨10000, 10000⟩ 90 = (Except.ok 91, ⟨9910, 10091⟩) := by
  refine ⟨by norm_num, ?_, rfl, ?_, rfl⟩ <;> norm_num [price0]

/-- C3: `quoteBuy0 a0` fails with `InsufficientReserve` exactly when
`a0 ≥ r0`, and for `a0 < r0` returns `⌈(r0*r1) / (r0-a0)⌉ - r1`; it is
pure (in this embedding it returns no state at all). -/
theorem quoteBuy0_spec (p : PartialAmm) (a0 : Int) :
    (quoteBuy0 p a0 = Except.error "InsufficientReserve" ↔ p.r0 ≤ a0) ∧
    (a0 < p.r0 →
      quoteBuy0 p a0 =
        Except.ok (⌈((p.r0 * p.r1 : Int) : ℚ) / ((p.r0 - a0 : Int) : ℚ)⌉ - p.r1)) := by
  constructor
  · simp only [quoteBuy0, ge_iff_le]
    split
    · next hge => simpa using hge
    · next hge =>
      simp only [not_le] at hge
      constructor
      · intro h; exact Except.noConfusion h
      · intro h; omega
  · intro h
    have hd : 0 < p.r0 - a0 := by omega
    rw [(quoteBuy0_eq_ok p a0 _).2 ⟨h, rfl⟩]
    rw [divup_eq_ceil _ hd]

/-- C3 witness: boundary rejection at `a0 = r0` and `a0 = r0 + 1` on the
pool `(5, 7)`, and the ceiling value for `a0 = 2`. -/
theorem quoteBuy0_spec_witness :
    (quoteBuy0 ⟨5, 7⟩ 5 = Except.error "InsufficientReserve" ↔ (5 : Int) ≤ 5) ∧
    (quoteBuy0 ⟨5, 7⟩ 6 = Except.error "InsufficientReserve" ↔ (5 : Int) ≤ 6) ∧
    quoteBuy0 ⟨5, 7⟩ 2 =
      Except.ok (⌈((5 * 7 : Int) : ℚ) / ((5 - 2 : Int) : ℚ)⌉ - 7) :=
  ⟨(quoteBuy0_spec ⟨5, 7⟩ 5).1, (quoteBuy0_spec ⟨5, 7⟩ 6).1,
   (quoteBuy0_spec ⟨5, 7⟩ 2).2 (by decide)⟩

/-- C4: on a pool state (reserves non-negative per the data-model
invariant) with `r0 + a0 > 0`, `quoteSell0 a0` computes
`a1 = r1 - tdiv (r0*r1) (r0+a0)` (truncating division, which here agrees
with the source's floor division), fails with `ReserveExhausted` exactly
when `a1 ≥ r1`, and otherwise returns `a1`; it is pure (in this
embedding it returns no state at all). -/
theorem quoteSell0_spec (p : PartialAmm) (a0 : Int)
    (h0 : 0 ≤ p.r0) (h1 : 0 ≤ p.r1) (hs : 0 < p.r0 + a0) :
    (quoteSell0 p a0 = Except.error "ReserveExhausted" ↔
      p.r1 ≤ p.r1 - (p.r0 * p.r1).tdiv (p.r0 + a0)) ∧
    (p.r1 - (p.r0 * p.r1).tdiv (p.r0 + a0) < p.r1 →
      quoteSell0 p a0 =
        Except.ok (p.r1 - (p.r0 * p.r1).tdiv (p.r0 + a0))) := by
  have heq : (p.r0 * p.r1).tdiv (p.r0 + a0) = (p.r0 * p.r1).fdiv (p.r0 + a0) := by
    rw [Int.tdiv_eq_ediv (mul_nonneg h0 h1) hs.le, fdiv_eq_ediv_of_pos _ hs]
  rw [heq]
  constructor
  · simp only [quoteSell0, ge_iff_le]
    split
    · next hge => simpa using hge
    · next hge =>
      constructor
      · intro h; exact Except.noConfusion h
      · intro h; exact absurd h hge
  · intro h
    exact (quoteSell0_eq_ok p a0 _).2 ⟨rfl, by omega⟩

/-- C4 witness: the success case on pool `(4, 4)` selling `4`, and the
`ReserveExhausted` case on pool `(1, 1)` selling `1`. -/
theorem quoteSell0_spec_witness :
    quoteSell0 ⟨4, 4⟩ 4 = Except.ok (4 - ((4 : Int) * 4).tdiv (4 + 4)) ∧
    (quoteSell0 ⟨1, 1⟩ 1 = Except.error "ReserveExhausted" ↔
      (1 : Int) ≤ 1 - ((1 : Int) * 1).tdiv (1 + 1)) :=
  ⟨(quoteSell0_spec ⟨4, 4⟩ 4 (by decide) (by decide) (by decide)).2 (by decide),
   (quoteSell0_spec ⟨1, 1⟩ 1 (by decide) (by decide) (by decide)).1⟩

/-- C5: `buy0` and `sell0` are atomic: when the quote succeeds they apply
both reserve updates and return the quote's value; when the quote fails
they fail with the same error and the pool is unchanged. -/
theorem buy0_sell0_atomic (p : PartialAmm) (a0 : Int) :
    (∀ a1, quoteBuy0 p a0 = Except.ok a1 →
      buy0 p a0 = (Except.ok a1, ⟨p.r0 - a0, p.r1 + a1⟩)) ∧
    (∀ e, quoteBuy0 p a0 = Except.error e →
      buy0 p a0 = (Except.error e, p)) ∧
    (∀ a1, quoteSell0 p a0 = Except.ok a1 →
      sell0 p a0 = (Except.ok a1, ⟨p.r0 + a0, p.r1 - a1⟩)) ∧
    (∀ e, quoteSell0 p a0 = Except.error e →
      sell0 p a0 = (Except.error e, p)) := by
  refine ⟨fun a1 h => ?_, fun e h => ?_, fun a1 h => ?_, fun e h => ?_⟩ <;>
    simp [buy0, sell0, h]

/-- C5 witness: both branches of `buy0` on the pool `(2, 3)` and both
branches of `sell0`, each via the atomicity theorem. -/
theorem buy0_sell0_atomic_witness :
    buy0 ⟨2, 3⟩ 1 = (Except.ok 3, ⟨2 - 1, 3 + 3⟩) ∧
    buy0 ⟨2, 3⟩ 2 = (Except.error "InsufficientReserve", ⟨2, 3⟩) ∧
    sell0 ⟨2, 3⟩ 1 = (Except.ok 1, ⟨2 + 1, 3 - 1⟩) ∧
    sell0 ⟨1, 1⟩ 1 = (Except.error "ReserveExhausted", ⟨1, 1⟩) :=
  ⟨(buy0_sell0_atomic ⟨2, 3⟩ 1).1 3 rfl,
   (buy0_sell0_atomic ⟨2, 3⟩ 2).2.1 "InsufficientReserve" rfl,
   (buy0_sell0_atomic ⟨2, 3⟩ 1).2.2.1 1 rfl,
   (buy0_sell0_atomic ⟨1, 1⟩ 1).2.2.2 "ReserveExhausted" rfl⟩

/-- C1: on reserves `r0, r1 > 0` with `0 < a0 < r0`, a successful
`buy0 a0` returning `a1` satisfies `(r0-a0)*(r1+a1) ≥ r0*r1`: the
constant product never decreases on a buy. -/
theorem buy0_product_nondec (p : PartialAmm) (a0 a1 : Int) (p2 : PartialAmm)
    (h0 : 0 < p.r0) (h1 : 0 < p.r1) (ha : 0 < a0) (ha2 : a0 < p.r0)
    (hbuy : buy0 p a0 = (Except.ok a1, p2)) :
    p.r0 * p.r1 ≤ (p.r0 - a0) * (p.r1 + a1) := by
  have hd : 0 < p.r0 - a0 := by omega
  obtain ⟨hq, -⟩ := (buy0_eq_ok p a0 a1 p2).1 hbuy
  obtain ⟨-, ha1⟩ := (quoteBuy0_eq_ok p a0 a1).1 hq
  have hsum : p.r1 + a1 = divup (p.r0 * p.r1) (p.r0 - a0) := by omega
  rw [hsum]
  exact le_mul_divup _ hd

/-- C1 witness: the scenario `buy0 90` on the pool `(10000, 10000)`. -/
theorem buy0_product_nondec_witness :
    (10000 : Int) * 10000 ≤ (10000 - 90) * (10000 + 91) :=
  buy0_product_nondec ⟨10000, 10000⟩ 90 91 ⟨9910, 10091⟩
    (by decide) (by decide) (by decide) (by decide) rfl

/-- C10: on reserves `r0, r1 > 0` with `0 < a0 < r0`, `quoteBuy0 a0`
(and hence `buy0 a0`) returns `a1 ≥ 1`: the payment for any positive
purchase is never zero. -/
theorem quoteBuy0_pos (p : PartialAmm) (a0 a1 : Int) (p2 : PartialAmm)
    (h0 : 0 < p.r0) (h1 : 0 < p.r1) (ha : 0 < a0) (ha2 : a0 < p.r0) :
    (quoteBuy0 p a0 = Except.ok a1 → 1 ≤ a1) ∧
    (buy0 p a0 = (Except.ok a1, p2) → 1 ≤ a1) := by
  have hd : 0 < p.r0 - a0 := by omega
  have main : quoteBuy0 p a0 = Except.ok a1 → 1 ≤ a1 := by
    intro hq
    obtain ⟨-, ha1⟩ := (quoteBuy0_eq_ok p a0 a1).1 hq
    have hge := le_mul_divup (p.r0 * p.r1) hd
    have hlt : (p.r0 - a0) * p.r1 < p.r0 * p.r1 := by nlinarith
    have hkey : p.r1 < divup (p.r0 * p.r1) (p.r0 - a0) := by
      by_contra hle
      push_neg at hle
      have := mul_le_mul_of_nonneg_left hle hd.le
      omega
    omega
  exact ⟨main, fun hbuy => main ((buy0_eq_ok p a0 a1 p2).1 hbuy).1⟩

/-- C10 witness: the payment for `buy0 90` on the pool `(10000, 10000)`
is `91 ≥ 1`, via both conjuncts. -/
theorem quoteBuy0_pos_witness : (1 : Int) ≤ 91 ∧ (1 : Int) ≤ 91 :=
  ⟨(quoteBuy0_pos ⟨10000, 10000⟩ 90 91 ⟨9910, 10091⟩
      (by decide) (by decide) (by decide) (by decide)).1 rfl,
   (quoteBuy0_pos ⟨10000, 10000⟩ 90 91 ⟨9910, 10091⟩
      (by decide) (by decide) (by decide) (by decide)).2 rfl⟩

/-- C8: on reserves `r0, r1 > 0` and `a0 > 0`, a successful `sell0 a0`
returning `a1` satisfies `(r0+a0)*(r1-a1) ≤ r0*r1`, and the deficit
`r0*r1 - (r0+a0)*(r1-a1)` is strictly less than `r0 + a0` (the payout
overshoots the exact payout by less than one unit of asset-1). -/
theorem sell0_product_bound (p : PartialAmm) (a0 a1 : Int) (p2 : PartialAmm)
    (h0 : 0 < p.r0) (h1 : 0 < p.r1) (ha : 0 < a0)
    (hsell : sell0 p a0 = (Except.ok a1, p2)) :
    (p.r0 + a0) * (p.r1 - a1) ≤ p.r0 * p.r1 ∧
    p.r0 * p.r1 - (p.r0 + a0) * (p.r1 - a1) < p.r0 + a0 := by
  have hs : 0 < p.r0 + a0 := by omega
  obtain ⟨hq, -⟩ := (sell0_eq_ok p a0 a1 p2).1 hsell
  obtain ⟨ha1, -⟩ := (quoteSell0_eq_ok p a0 a1).1 hq
  have hfe : (p.r0 * p.r1).fdiv (p.r0 + a0) = (p.r0 * p.r1) / (p.r0 + a0) :=
    fdiv_eq_ediv_of_pos _ hs
  have hdm := Int.ediv_add_emod (p.r0 * p.r1) (p.r0 + a0)
  have hm0 : 0 ≤ (p.r0 * p.r1) % (p.r0 + a0) := Int.emod_nonneg _ (by omega)
  have hm1 : (p.r0 * p.r1) % (p.r0 + a0) < p.r0 + a0 := Int.emod_lt_of_pos _ hs
  have hsub : p.r1 - a1 = (p.r0 * p.r1) / (p.r0 + a0) := by omega
  rw [hsub]
  omega

/-- C8 witness: the scenario `sell0 10000` on the pool `(10000, 10000)`:
the deficit is `0`, which is less than `20000`. -/
theorem sell0_product_bound_witness :
    ((10000 : Int) + 10000) * (10000 - 5000) ≤ 10000 * 10000 ∧
    (10000 : Int) * 10000 - (10000 + 10000) * (10000 - 5000) < 10000 + 10000 :=
  sell0_product_bound ⟨10000, 10000⟩ 10000 5000 ⟨20000, 5000⟩
    (by decide) (by decide) (by decide) rfl

/-- C2: on a fresh pool with `r0, r1 > 0` and `0 < a0 < r0`, `buy0 a0`
followed by `sell0 a0` both succeed and return the pool to a state with
`r0` equal to its original value and `r1` at most its original value. -/
theorem buy_sell_round_trip (p : PartialAmm) (a0 : Int)
    (h0 : 0 < p.r0) (h1 : 0 < p.r1) (ha : 0 < a0) (ha2 : a0 < p.r0) :
    ∃ a1 p2 a1' p3,
      buy0 p a0 = (Except.ok a1, p2) ∧
      sell0 p2 a0 = (Except.ok a1', p3) ∧
      p3.r0 = p.r0 ∧ p3.r1 ≤ p.r1 := by
  have hd : 0 < p.r0 - a0 := by omega
  set k := p.r0 * p.r1 with hk
  set q := divup k (p.r0 - a0) with hqdef
  have hqb : quoteBuy0 p a0 = Except.ok (q - p.r1) :=
    (quoteBuy0_eq_ok p a0 _).2 ⟨ha2, rfl⟩
  set p2 : PartialAmm := ⟨p.r0 - a0, p.r1 + (q - p.r1)⟩ with hp2
  have hbuy : buy0 p a0 = (Except.ok (q - p.r1), p2) :=
    (buy0_eq_ok p a0 _ _).2 ⟨hqb, rfl⟩
  have hp2r0 : p2.r0 = p.r0 - a0 := rfl
  have hp2r1 : p2.r1 = q := by show p.r1 + (q - p.r1) = q; omega
  have hs : p2.r0 + a0 = p.r0 := by rw [hp2r0]; omega
  have hk2 : p2.r0 * p2.r1 = (p.r0 - a0) * q := by rw [hp2r0, hp2r1]
  have hfd : (p2.r0 * p2.r1).fdiv (p2.r0 + a0) = (p.r0 - a0) * q / p.r0 := by
    rw [hk2, hs, fdiv_eq_ediv_of_pos _ h0]
  have hA : k ≤ (p.r0 - a0) * q := le_mul_divup k hd
  have hB : (p.r0 - a0) * q < k + (p.r0 - a0) := mul_divup_lt k hd
  have hk0 : p.r0 ≤ k := by
    rw [hk]; exact le_mul_of_one_le_right h0.le (by omega)
  have hF1 : 1 ≤ (p.r0 - a0) * q / p.r0 := by
    rw [Int.le_ediv_iff_mul_le h0]; omega
  have hFr1 : (p.r0 - a0) * q / p.r0 < p.r1 + 1 := by
    rw [Int.ediv_lt_iff_lt_mul h0]
    have hexp : (p.r1 + 1) * p.r0 = k + p.r0 := by rw [hk]; ring
    omega
  have hqs : quoteSell0 p2 a0 =
      Except.ok (p2.r1 - (p2.r0 * p2.r1).fdiv (p2.r0 + a0)) := by
    refine (quoteSell0_eq_ok p2 a0 _).2 ⟨rfl, ?_⟩
    rw [hfd]; omega
  have hsell : sell0 p2 a0 =
      (Except.ok (p2.r1 - (p2.r0 * p2.r1).fdiv (p2.r0 + a0)),
       ⟨p2.r0 + a0, p2.r1 - (p2.r1 - (p2.r0 * p2.r1).fdiv (p2.r0 + a0))⟩) :=
    (sell0_eq_ok p2 a0 _ _).2 ⟨hqs, rfl⟩
  refine ⟨q - p.r1, p2, _, _, hbuy, hsell, ?_, ?_⟩
  · exact hs
  · show p2.r1 - (p2.r1 - (p2.r0 * p2.r1).fdiv (p2.r0 + a0)) ≤ p.r1
    rw [hfd]; omega

/-- C2 witness: on the pool `(10000, 10000)` with `a0 = 90` the round
trip exists (with the concrete hypotheses discharged). -/
theorem buy_sell_round_trip_witness :
    ∃ a1 p2 a1' p3,
      buy0 ⟨10000, 10000⟩ 90 = (Except.ok a1, p2) ∧
      sell0 p2 90 = (Except.ok a1', p3) ∧
      p3.r0 = 10000 ∧ p3.r1 ≤ 10000 :=
  buy_sell_round_trip ⟨10000, 10000⟩ 90
    (by decide) (by decide) (by decide) (by decide)

/-- C7 counterexample: the pool `(1, 0)` satisfies the claim's
hypotheses (`r0 = 1 > 0`, `a0 = 1 > 0`), yet `donate0 1` leaves
`k = 0` and `price0 = 0` unchanged, so neither the strict increase of
`k` nor the strict decrease of `price0` holds there. -/
theorem donate0_claim_counterexample :
    ¬ ((donate0 ⟨1, 0⟩ 1).2.r0 = 1 + 1 ∧
       (donate0 ⟨1, 0⟩ 1).2.r1 = 0 ∧
       (1 : Int) * 0 < (donate0 ⟨1, 0⟩ 1).2.r0 * (donate0 ⟨1, 0⟩ 1).2.r1 ∧
       price0 (donate0 ⟨1, 0⟩ 1).2 < price0 ⟨1, 0⟩ ∧
       (donate0 ⟨1, 0⟩ 1).1 = price0 (donate0 ⟨1, 0⟩ 1).2) := by
  intro h
  have hlt := h.2.2.1
  norm_num [donate0] at hlt

/-- C7 amended: with the additional hypothesis `r1 > 0` (alongside the
claim's `r0 > 0` and `a0 > 0`), `donate0 a0` increases `r0` by exactly
`a0`, leaves `r1` unchanged, strictly increases `k = r0 * r1`, strictly
decreases `price0`, and returns the updated `price0`. -/
theorem donate0_spec (p : PartialAmm) (a0 : Int)
    (h0 : 0 < p.r0) (h1 : 0 < p.r1) (ha : 0 < a0) :
    (donate0 p a0).2.r0 = p.r0 + a0 ∧
    (donate0 p a0).2.r1 = p.r1 ∧
    p.r0 * p.r1 < (donate0 p a0).2.r0 * (donate0 p a0).2.r1 ∧
    price0 (donate0 p a0).2 < price0 p ∧
    (donate0 p a0).1 = price0 (donate0 p a0).2 := by
  refine ⟨rfl, rfl, ?_, ?_, rfl⟩
  · show p.r0 * p.r1 < (p.r0 + a0) * p.r1
    nlinarith
  · show price0 ⟨p.r0 + a0, p.r1⟩ < price0 p
    unfold price0
    have h0q : (0 : ℚ) < (p.r0 : ℚ) := by exact_mod_cast h0
    have h1q : (0 : ℚ) < (p.r1 : ℚ) := by exact_mod_cast h1
    have hcast : ((p.r0 + a0 : Int) : ℚ) = (p.r0 : ℚ) + (a0 : ℚ) := by push_cast; ring
    rw [hcast]
    have hlt : (p.r0 : ℚ) < (p.r0 : ℚ) + (a0 : ℚ) := by
      have : (0 : ℚ) < (a0 : ℚ) := by exact_mod_cast ha
      linarith
    exact div_lt_div_of_pos_left h1q h0q hlt

/-- C7 amended witness: donating `1` to the pool `(1, 1)` moves the
reserves to `(2, 1)`, the product from `1` to `2`, and the price from
`1` down to `1/2`. -/
theorem donate0_spec_witness :
    (donate0 ⟨1, 1⟩ 1).2.r0 = 1 + 1 ∧
    (donate0 ⟨1, 1⟩ 1).2.r1 = 1 ∧
    (1 : Int) * 1 < (donate0 ⟨1, 1⟩ 1).2.r0 * (donate0 ⟨1, 1⟩ 1).2.r1 ∧
    price0 (donate0 ⟨1, 1⟩ 1).2 < price0 ⟨1, 1⟩ ∧
    (donate0 ⟨1, 1⟩ 1).1 = price0 (donate0 ⟨1, 1⟩ 1).2 :=
  donate0_spec ⟨1, 1⟩ 1 (by decide) (by decide) (by decide)

end Amm
